import Mathlib

/-!
Verification of `src/scripts/cnssi-merge.py`.

The script walks `<customs>/*/rules/*/*`, and for each source rule file
computes a target path in the project tree, parses both files as YAML,
and does a textual replacement inserting a `- <tag>` line before the
`severity:` (or `mobileconfig:`) line of the target, writing the result
back.

Text is modelled as `List Char` (a Python `str`).  Python's
`str.replace` and `str.split` are embedded as fuel-based executable
recursions (`pyReplaceF` / `pySplitF`) with fuel equal to the length of
the scanned text, which always suffices, so the wrappers `pyReplace` and
`pySplit` compute the exact Python semantics for the non-empty patterns
the script uses.
-/

namespace CnssiMerge

/-- Python `pat in s` (substring containment) for a non-empty pattern
`pat`: true iff `pat` occurs as a contiguous substring of `s`.
Used by line 19 of the script (`"supplemental" in ruleCNSSI`). -/
def containsPat (pat : List Char) : List Char → Bool
  | [] => false
  | c :: rest => pat.isPrefixOf (c :: rest) || containsPat pat rest

/-- Fueled core of Python `str.replace`: scan left to right, replacing
each non-overlapping occurrence of `pat` by `repl`.  One unit of fuel is
spent per step and each step consumes at least one character of the
scanned text, so fuel `s.length` always suffices. -/
def pyReplaceF (pat repl : List Char) : Nat → List Char → List Char
  | _, [] => []
  | 0, s => s
  | n + 1, c :: rest =>
    if pat.isPrefixOf (c :: rest) then
      repl ++ pyReplaceF pat repl n (rest.drop (pat.length - 1))
    else
      c :: pyReplaceF pat repl n rest

/-- Python `s.replace(pat, repl)` for the non-empty patterns the script
uses (lines 40 and 50): every non-overlapping occurrence of `pat` in
`s`, found left to right, is replaced by `repl`. -/
def pyReplace (pat repl s : List Char) : List Char :=
  pyReplaceF pat repl s.length s

/-- Fueled core of Python `str.split` on a non-empty separator. -/
def pySplitF (pat : List Char) : Nat → List Char → List (List Char)
  | _, [] => [[]]
  | 0, s => [s]
  | n + 1, c :: rest =>
    if pat.isPrefixOf (c :: rest) then
      [] :: pySplitF pat n (rest.drop (pat.length - 1))
    else
      match pySplitF pat n rest with
      | [] => [[c]]
      | h :: t => (c :: h) :: t

/-- Python `s.split(pat)` for a non-empty separator `pat` (line 22 of
the script): the chunks of `s` between the non-overlapping occurrences
of `pat`, found left to right. -/
def pySplit (pat s : List Char) : List (List Char) :=
  pySplitF pat s.length s

/-- The prefix of `s` strictly before the first occurrence of `pat`
(all of `s` when `pat`, assumed non-empty, does not occur). -/
def beforeFirst (pat : List Char) : List Char → List Char
  | [] => []
  | c :: rest =>
    if pat.isPrefixOf (c :: rest) then [] else c :: beforeFirst pat rest

/-- The suffix of `s` starting immediately after the last occurrence of
`pat` (`none` when `pat` does not occur).  This follows the words of the
spec's path-mapping paragraph, which speaks of the LAST occurrence of
"rules"; it is compared against `targetPath`, the computation the code
performs. -/
def afterLast (pat : List Char) : List Char → Option (List Char)
  | [] => none
  | c :: rest =>
    match afterLast pat rest with
    | some r => some r
    | none =>
      if pat.isPrefixOf (c :: rest) then some ((c :: rest).drop pat.length)
      else none

/-- Replacement of only the FIRST occurrence of `pat`, everything after
it untouched.  This follows the words of the spec's insertion paragraph
("replace the first occurrence ..."); it is compared against
`pyReplace`, the replacement the code performs. -/
def replaceFirstOnly (pat repl : List Char) : List Char → List Char
  | [] => []
  | c :: rest =>
    if pat.isPrefixOf (c :: rest) then repl ++ (c :: rest).drop pat.length
    else c :: replaceFirstOnly pat repl rest

/-- A rule file parsed as a YAML mapping, reduced to the three
observations the script makes of it: `rule_cnssi_yaml.get('tags', [''])`
(line 28) together with `tags[0]` (lines 36/46), and the key-presence
test `'severity' in rule_yaml` (line 35).  Following the spec's data
model (`tags: sequence<string>`, optional), `tags = none` models an
absent `tags` key and `tags = some l` a present one with value `l`;
`severityPresent` / `mobileconfigPresent` record whether the mapping
carries the corresponding key.  All other fields of the mapping are
never read by the script. -/
structure RuleYaml where
  tags : Option (List String)
  severityPresent : Bool
  mobileconfigPresent : Bool
deriving DecidableEq

/-- Line 28: `tags = rule_cnssi_yaml.get('tags', [''])` — the `tags`
value when the key is present, and the one-element list `['']`
otherwise. -/
def getTags (y : RuleYaml) : List String :=
  y.tags.getD [""]

/-- The literal line `severity:`. -/
def sevLine : List Char := "severity:".data

/-- The literal line `mobileconfig:`. -/
def mobLine : List Char := "mobileconfig:".data

/-- Lines 35/45: the anchor line is `severity:` when the target mapping
has a `severity` key and `mobileconfig:` otherwise. -/
def anchorOf (tgt : RuleYaml) : List Char :=
  if tgt.severityPresent then sevLine else mobLine

/-- Line 22: `pathToProject + "rules" + ruleCNSSI.split("rules")[1]`.
The result is `none` when `"rules"` does not occur in the source path
(Python would raise `IndexError`); every glob-discovered path contains
a `/rules/` segment, so that case is unreachable in a run. -/
def targetPath (pathToProject ruleCNSSI : List Char) : Option (List Char) :=
  match pySplit "rules".data ruleCNSSI with
  | _ :: second :: _ => some (pathToProject ++ "rules".data ++ second)
  | _ => none

/-- The path mapping as the spec words it: the project root, then
`"rules"`, then the suffix of the source path after the LAST occurrence
of `"rules"`. -/
def targetPathSpec (pathToProject ruleCNSSI : List Char) : Option (List Char) :=
  (afterLast "rules".data ruleCNSSI).map
    (fun suffix => pathToProject ++ "rules".data ++ suffix)

/-- The new list-item line `- <tag>` together with the newline that
precedes it: the `'\n- {}'` part of the format strings on lines 36/46. -/
def insLine (tag : String) : List Char :=
  '\n' :: '-' :: ' ' :: tag.data

/-- Lines 36/46: `cnssitag = '\n- {}\n<anchor>'.format(tags[0])`. -/
def cnssitag (tag : String) (anchorLine : List Char) : List Char :=
  insLine tag ++ '\n' :: anchorLine

/-- Lines 40/50: `yaml_rule.replace("\n<anchor>", cnssitag)` — the
whole textual transformation the script applies to a target file's
text. -/
def mergeText (tag : String) (anchorLine text : List Char) : List Char :=
  pyReplace ('\n' :: anchorLine) (cnssitag tag anchorLine) text

/-- One console line printed by the script, as an event carrying the
printed payload (rendering is abstracted). -/
inductive Event where
  /-- Line 26: `print(file)`. -/
  | printedTarget (path : List Char)
  /-- Line 29: `print(tags)`. -/
  | printedTags (tags : List String)
  /-- Lines 37, 44, 47, 54: `print(cnssitag)`. -/
  | printedCnssitag (s : List Char)
  /-- Lines 43, 53: `print(yaml_rule)` (the rewritten text). -/
  | printedResult (s : List Char)
  /-- Line 56: `print("File: {} not found".format(file))`. -/
  | notFound (path : List Char)
  /-- Line 12: the usage message. -/
  | printedUsage
deriving DecidableEq

/-- Lines 28–54 with both YAML loads already done: extract the tag,
pick the anchor, rewrite the text, and report the prints.  `none`
models the uncaught `IndexError` that `tags[0]` raises when the source
carries an explicitly empty `tags` list (it aborts the whole run). -/
def mergeStep (file : List Char) (srcY tgtY : RuleYaml) (tgtText : List Char) :
    Option (List Char × List Event) :=
  match getTags srcY with
  | [] => none
  | tag :: rest =>
    let merged := mergeText tag (anchorOf tgtY) tgtText
    some (merged,
      [Event.printedTarget file,
       Event.printedTags (tag :: rest),
       Event.printedCnssitag (cnssitag tag (anchorOf tgtY)),
       Event.printedResult merged,
       Event.printedCnssitag (cnssitag tag (anchorOf tgtY))])

/-- The filesystem visible to the script: an association of paths to
file texts.  A path is a regular file iff it has an entry. -/
abbrev FS := List (List Char × List Char)

/-- `Path.is_file` / `open(...)`: the text stored at `p`, if any. -/
def lookupFile : FS → List Char → Option (List Char)
  | [], _ => none
  | e :: fs, p => if e.1 == p then some e.2 else lookupFile fs p

/-- `open(p, 'w').write(t)`: overwrite the text stored at `p`.  The
script only ever writes to a path it has just checked with `is_file`,
so updating existing entries is the only reachable behaviour. -/
def writeFile (fs : FS) (p t : List Char) : FS :=
  fs.map (fun e => if e.1 == p then (e.1, t) else e)

/-- Lines 18–56, one loop iteration for a discovered source path
`ruleCNSSI`.  The YAML parser (`yaml.load`, a library the script calls)
is passed in as an oracle `load`; `load text = none` models a parse
error, which aborts the run.  `none` overall models an uncaught
exception; `some (fs', events)` a completed iteration.  The script
re-opens the target three times (lines 23/32/38) with no intervening
write, so a single lookup of its text is faithful. -/
def processRule (load : List Char → Option RuleYaml) (proj : List Char)
    (fs : FS) (ruleCNSSI : List Char) : Option (FS × List Event) :=
  if containsPat "supplemental".data ruleCNSSI then some (fs, [])
  else
    match targetPath proj ruleCNSSI with
    | none => none
    | some file =>
      match lookupFile fs file with
      | none => some (fs, [Event.notFound file])
      | some tgtText =>
        match lookupFile fs ruleCNSSI with
        | none => none
        | some srcText =>
          match load srcText with
          | none => none
          | some srcY =>
            match load tgtText with
            | none => none
            | some tgtY =>
              match mergeStep file srcY tgtY tgtText with
              | none => none
              | some (merged, evs) => some (writeFile fs file merged, evs)

/-- The whole loop of line 18, over the list of glob-discovered source
paths, threading the filesystem and accumulating the printed events. -/
def runRules (load : List Char → Option RuleYaml) (proj : List Char)
    (fs : FS) : List (List Char) → Option (FS × List Event)
  | [] => some (fs, [])
  | r :: rest =>
    match processRule load proj fs r with
    | none => none
    | some (fs₁, evs) =>
      match runRules load proj fs₁ rest with
      | none => none
      | some (fs₂, evs') => some (fs₂, evs ++ evs')

/-- The usage message of line 12. -/
def usageMsg : List Char :=
  "Usage: cnssi-merge.py <pathToProject> <pathToCNSSICustoms>".data

/-- Lines 11–18: the whole program.  `argv` is Python's `sys.argv`
(program name first, so two user arguments mean `argv.length = 3`);
`globbed` is the list of paths the glob of line 18 yields.  The result
is the exit status, the final filesystem and the printed events, or
`none` for an uncaught exception. -/
def mainRun (load : List Char → Option RuleYaml) (argv : List (List Char))
    (globbed : List (List Char)) (fs : FS) :
    Option (Nat × FS × List Event) :=
  if argv.length ≠ 3 then some (1, fs, [Event.printedUsage])
  else
    match argv with
    | _ :: proj :: _ =>
      (runRules load proj fs globbed).map (fun r => (0, r.1, r.2))
    | _ => none

/-! Concrete fixtures used by witnesses and counterexamples: a small
customs tree with one rule file, the matching project target, and a
parse oracle for their texts. -/

/-- Fixture: the project root argument. -/
def projX : List Char := "/p/".data

/-- Fixture: a glob-discovered source path `<customs>/<variant>/rules/<category>/<file>`. -/
def srcPathX : List Char := "/c/v1/rules/audit/r1.yaml".data

/-- Fixture: the matching target path under the project root. -/
def tgtPathX : List Char := "/p/rules/audit/r1.yaml".data

/-- Fixture: a source rule file with one tag. -/
def srcTextX : List Char := "tags:\n- cnssi\n".data

/-- Fixture: a source rule file whose `tags` key holds an empty list. -/
def srcTextEmptyTags : List Char := "tags: []\n".data

/-- Fixture: a target rule file with a `severity` key. -/
def tgtTextX : List Char := "id: r1\nseverity: low\n".data

/-- Fixture: a target rule file with neither `severity` nor
`mobileconfig`. -/
def tgtTextNoKeys : List Char := "id: r2\nfix: echo hi\n".data

/-- Fixture parse oracle: the YAML mappings the fixture texts denote. -/
def loadX : List Char → Option RuleYaml := fun t =>
  if t == srcTextX then some ⟨some ["cnssi"], false, false⟩
  else if t == srcTextEmptyTags then some ⟨some [], false, false⟩
  else if t == tgtTextX then some ⟨none, true, false⟩
  else if t == tgtTextNoKeys then some ⟨none, false, false⟩
  else none

/-- Fixture filesystem: source and target both present. -/
def fsX : FS := [(srcPathX, srcTextX), (tgtPathX, tgtTextX)]

/-- Fixture filesystem: the source rule carries an empty `tags` list. -/
def fsEmptyTags : FS := [(srcPathX, srcTextEmptyTags), (tgtPathX, tgtTextX)]

/-- Fixture filesystem: the target lacks both anchor keys. -/
def fsNoKeys : FS := [(srcPathX, srcTextX), (tgtPathX, tgtTextNoKeys)]

/-- Fixture filesystem: the target file is missing. -/
def fsMissing : FS := [(srcPathX, srcTextX)]

/-! Characteristic equations of the fueled scans.  The fuel argument of
`pyReplaceF` / `pySplitF` is irrelevant as long as it dominates the
length of the scanned text, which yields the usual one-step unfolding
equations for the wrappers `pyReplace` / `pySplit`. -/

theorem pyReplaceF_congr (pat repl : List Char) :
    ∀ n m s, s.length ≤ n → s.length ≤ m →
      pyReplaceF pat repl n s = pyReplaceF pat repl m s := by
  intro n
  induction n with
  | zero =>
    intro m s hn _
    have hs : s = [] := List.eq_nil_of_length_eq_zero (Nat.le_zero.mp hn)
    subst hs
    cases m <;> rfl
  | succ n ih =>
    intro m s hn hm
    cases s with
    | nil => cases m <;> rfl
    | cons c rest =>
      cases m with
      | zero => simp at hm
      | succ m' =>
        simp only [List.length_cons, Nat.succ_le_succ_iff] at hn hm
        simp only [pyReplaceF]
        by_cases h : pat.isPrefixOf (c :: rest) = true
        · simp only [h, if_true]
          have hd : (rest.drop (pat.length - 1)).length ≤ rest.length := by
            simp [List.length_drop]
          exact congrArg (repl ++ ·)
            (ih m' (rest.drop (pat.length - 1)) (le_trans hd hn) (le_trans hd hm))
        · simp only [h, if_false]
          exact congrArg (c :: ·) (ih m' rest hn hm)

theorem pyReplace_nil (pat repl : List Char) : pyReplace pat repl [] = [] := rfl

theorem pyReplace_cons_pos (pat repl : List Char) (c : Char) (rest : List Char)
    (h : pat.isPrefixOf (c :: rest) = true) :
    pyReplace pat repl (c :: rest)
      = repl ++ pyReplace pat repl (rest.drop (pat.length - 1)) := by
  show pyReplaceF pat repl (rest.length + 1) (c :: rest) = _
  simp only [pyReplaceF, h, if_true]
  exact congrArg (repl ++ ·)
    (pyReplaceF_congr pat repl rest.length _ _ (by simp [List.length_drop]) le_rfl)

theorem pyReplace_cons_neg (pat repl : List Char) (c : Char) (rest : List Char)
    (h : ¬ pat.isPrefixOf (c :: rest) = true) :
    pyReplace pat repl (c :: rest) = c :: pyReplace pat repl rest := by
  show pyReplaceF pat repl (rest.length + 1) (c :: rest) = _
  simp only [pyReplaceF, h, if_false]
  rfl

theorem pySplitF_congr (pat : List Char) :
    ∀ n m s, s.length ≤ n → s.length ≤ m →
      pySplitF pat n s = pySplitF pat m s := by
  intro n
  induction n with
  | zero =>
    intro m s hn _
    have hs : s = [] := List.eq_nil_of_length_eq_zero (Nat.le_zero.mp hn)
    subst hs
    cases m <;> rfl
  | succ n ih =>
    intro m s hn hm
    cases s with
    | nil => cases m <;> rfl
    | cons c rest =>
      cases m with
      | zero => simp at hm
      | succ m' =>
        simp only [List.length_cons, Nat.succ_le_succ_iff] at hn hm
        simp only [pySplitF]
        by_cases h : pat.isPrefixOf (c :: rest) = true
        · rw [if_pos h, if_pos h]
          have hd : (rest.drop (pat.length - 1)).length ≤ rest.length := by
            simp [List.length_drop]
          rw [ih m' (rest.drop (pat.length - 1)) (le_trans hd hn) (le_trans hd hm)]
        · rw [if_neg h, if_neg h]
          rw [ih m' rest hn hm]

theorem pySplit_nil (pat : List Char) : pySplit pat [] = [[]] := rfl

theorem pySplit_cons_pos (pat : List Char) (c : Char) (rest : List Char)
    (h : pat.isPrefixOf (c :: rest) = true) :
    pySplit pat (c :: rest)
      = [] :: pySplit pat (rest.drop (pat.length - 1)) := by
  show pySplitF pat (rest.length + 1) (c :: rest) = _
  simp only [pySplitF, h, if_true]
  rw [pySplitF_congr pat rest.length _ _ (by simp [List.length_drop]) le_rfl]
  rfl

theorem pySplit_cons_neg (pat : List Char) (c : Char) (rest : List Char)
    (h : ¬ pat.isPrefixOf (c :: rest) = true) :
    pySplit pat (c :: rest)
      = match pySplit pat rest with
        | [] => [[c]]
        | hd :: t => (c :: hd) :: t := by
  show pySplitF pat (rest.length + 1) (c :: rest) = _
  simp only [pySplitF, h, if_false]
  rfl

/-! Occurrence bookkeeping: `isPrefixOf` characterised through `take`,
and how `containsPat` constrains where a pattern can match. -/

theorem isPrefixOf_iff_take :
    ∀ (p s : List Char), p.isPrefixOf s = true ↔ s.take p.length = p := by
  intro p
  induction p with
  | nil => intro s; simp [List.isPrefixOf]
  | cons x pt ih =>
    intro s
    cases s with
    | nil => simp [List.isPrefixOf]
    | cons y st =>
      simp only [List.isPrefixOf, List.length_cons, List.take_succ_cons,
        Bool.and_eq_true, beq_iff_eq, List.cons.injEq, ih st]
      constructor
      · rintro ⟨h1, h2⟩; exact ⟨h1.symm, h2⟩
      · rintro ⟨h1, h2⟩; exact ⟨h1.symm, h2⟩

theorem isPrefixOf_append_self (x y : List Char) : x.isPrefixOf (x ++ y) = true := by
  rw [isPrefixOf_iff_take]
  exact List.take_left x y

/-- A match of `pat` that starts strictly inside `x` (so at one of the
first `x.length` positions of `x ++ pat ++ b`, with `x` non-empty) is
entirely contained in `x ++ pat.dropLast`. -/
theorem isPrefixOf_into_dropLast (pat x b : List Char)
    (hx : x ≠ []) (hpat : pat ≠ [])
    (h : pat.isPrefixOf (x ++ pat ++ b) = true) :
    pat.isPrefixOf (x ++ pat.dropLast) = true := by
  rw [isPrefixOf_iff_take] at h ⊢
  have hxlen : 1 ≤ x.length := by
    cases x with
    | nil => exact absurd rfl hx
    | cons _ _ => simp
  have hplen : 1 ≤ pat.length := by
    cases pat with
    | nil => exact absurd rfl hpat
    | cons _ _ => simp
  have hshape : x ++ pat.dropLast = (x ++ (pat ++ b)).take (x.length + (pat.length - 1)) := by
    rw [List.take_append (pat.length - 1),
      List.take_append_of_le_length (by omega), ← List.dropLast_eq_take]
  rw [hshape, List.take_take,
    min_eq_left (by omega), ← List.append_assoc, h]

theorem containsPat_cons (pat : List Char) (c : Char) (rest : List Char) :
    containsPat pat (c :: rest)
      = (pat.isPrefixOf (c :: rest) || containsPat pat rest) := rfl

theorem containsPat_of_isPrefixOf (pat s : List Char) (hpat : pat ≠ [])
    (h : pat.isPrefixOf s = true) : containsPat pat s = true := by
  cases s with
  | nil =>
    cases pat with
    | nil => exact absurd rfl hpat
    | cons _ _ => simp [List.isPrefixOf] at h
  | cons c rest => simp [containsPat_cons, h]

/-- If no match of `pat` starts inside `a` (phrased as: `pat` does not
occur in `a ++ pat.dropLast`), the scan of `a ++ pat ++ b` finds its
first match exactly at offset `a.length`. -/
theorem not_isPrefixOf_of_not_contains (pat a b : List Char) (hpat : pat ≠ [])
    (c : Char) (a' : List Char) (ha : a = c :: a')
    (h : containsPat pat (a ++ pat.dropLast) = false) :
    ¬ pat.isPrefixOf (a ++ pat ++ b) = true := by
  intro hpre
  subst ha
  have := isPrefixOf_into_dropLast pat (c :: a') b (by simp) hpat hpre
  have hcontains := containsPat_of_isPrefixOf pat ((c :: a') ++ pat.dropLast) hpat this
  rw [h] at hcontains
  exact Bool.false_ne_true hcontains

/-! How the Python scans act on structured text: no occurrence means no
change, and a clean first occurrence at a known offset splits off. -/

theorem pyReplace_of_not_contains (pat repl : List Char) :
    ∀ s, containsPat pat s = false → pyReplace pat repl s = s := by
  intro s
  induction s with
  | nil => intro _; rfl
  | cons c rest ih =>
    intro h
    rw [containsPat_cons, Bool.or_eq_false_iff] at h
    rw [pyReplace_cons_neg pat repl c rest (by simp [h.1]), ih h.2]

theorem pySplit_of_not_contains (pat : List Char) :
    ∀ s, containsPat pat s = false → pySplit pat s = [s] := by
  intro s
  induction s with
  | nil => intro _; rfl
  | cons c rest ih =>
    intro h
    rw [containsPat_cons, Bool.or_eq_false_iff] at h
    rw [pySplit_cons_neg pat c rest (by simp [h.1]), ih h.2]

theorem pyReplace_append (pat repl b : List Char) (hpat : pat ≠ []) :
    ∀ a, containsPat pat (a ++ pat.dropLast) = false →
      pyReplace pat repl (a ++ pat ++ b) = a ++ repl ++ pyReplace pat repl b := by
  intro a
  induction a with
  | nil =>
    intro _
    cases pat with
    | nil => exact absurd rfl hpat
    | cons p pt =>
      simp only [List.nil_append]
      rw [show (p :: pt) ++ b = p :: (pt ++ b) from rfl,
        pyReplace_cons_pos (p :: pt) repl p (pt ++ b)
          (isPrefixOf_append_self (p :: pt) b),
        show (p :: pt).length - 1 = pt.length by simp,
        List.drop_left pt b]
  | cons c a' ih =>
    intro h
    have h' : containsPat pat (a' ++ pat.dropLast) = false := by
      rw [show (c :: a') ++ pat.dropLast = c :: (a' ++ pat.dropLast) from rfl,
        containsPat_cons, Bool.or_eq_false_iff] at h
      exact h.2
    rw [show (c :: a') ++ pat ++ b = c :: (a' ++ pat ++ b) from rfl,
      pyReplace_cons_neg pat repl c (a' ++ pat ++ b)
        (not_isPrefixOf_of_not_contains pat (c :: a') b hpat c a' rfl h),
      ih h']
    rfl

theorem pySplit_append (pat b : List Char) (hpat : pat ≠ []) :
    ∀ a, containsPat pat (a ++ pat.dropLast) = false →
      pySplit pat (a ++ pat ++ b) = a :: pySplit pat b := by
  intro a
  induction a with
  | nil =>
    intro _
    cases pat with
    | nil => exact absurd rfl hpat
    | cons p pt =>
      simp only [List.nil_append]
      rw [show (p :: pt) ++ b = p :: (pt ++ b) from rfl,
        pySplit_cons_pos (p :: pt) p (pt ++ b) (isPrefixOf_append_self (p :: pt) b),
        show (p :: pt).length - 1 = pt.length by simp,
        List.drop_left pt b]
  | cons c a' ih =>
    intro h
    have h' : containsPat pat (a' ++ pat.dropLast) = false := by
      rw [show (c :: a') ++ pat.dropLast = c :: (a' ++ pat.dropLast) from rfl,
        containsPat_cons, Bool.or_eq_false_iff] at h
      exact h.2
    rw [show (c :: a') ++ pat ++ b = c :: (a' ++ pat ++ b) from rfl,
      pySplit_cons_neg pat c (a' ++ pat ++ b)
        (not_isPrefixOf_of_not_contains pat (c :: a') b hpat c a' rfl h),
      ih h']

/-- The first chunk `pySplit` produces is the text before the first
occurrence of the separator. -/
theorem pySplit_head (pat : List Char) :
    ∀ s, ∃ t, pySplit pat s = beforeFirst pat s :: t := by
  intro s
  induction s with
  | nil => exact ⟨[], rfl⟩
  | cons c rest ih =>
    by_cases h : pat.isPrefixOf (c :: rest) = true
    · exact ⟨pySplit pat (rest.drop (pat.length - 1)),
        by rw [pySplit_cons_pos pat c rest h, beforeFirst, if_pos h]⟩
    · obtain ⟨t, ht⟩ := ih
      exact ⟨t, by rw [pySplit_cons_neg pat c rest h, ht, beforeFirst, if_neg h]⟩

/-! Filesystem frame lemmas: a write changes exactly the written path,
and each loop iteration writes at most the computed target path. -/

theorem lookupFile_cons (e : List Char × List Char) (fs : FS) (q : List Char) :
    lookupFile (e :: fs) q = if e.1 == q then some e.2 else lookupFile fs q := rfl

theorem lookupFile_writeFile (p t q : List Char) :
    ∀ fs : FS, lookupFile (writeFile fs p t) q
      = if q = p then (lookupFile fs p).map (fun _ => t) else lookupFile fs q := by
  intro fs
  induction fs with
  | nil =>
    show (none : Option (List Char)) = if q = p then Option.map _ none else none
    split <;> rfl
  | cons e fs' ih =>
    have hw : writeFile (e :: fs') p t
        = (if e.1 == p then (e.1, t) else e) :: writeFile fs' p t := rfl
    by_cases hp : e.1 = p
    · subst hp
      by_cases hq : e.1 = q
      · subst hq
        simp [hw, lookupFile_cons]
      · have hq' : ¬ q = e.1 := fun h => hq h.symm
        simp [hw, lookupFile_cons, hq, hq', ih]
    · by_cases hq : e.1 = q
      · subst hq
        have hq' : ¬ e.1 = p := hp
        simp [hw, lookupFile_cons, hp, hq', ih]
      · simp [hw, lookupFile_cons, hp, hq, ih]

/-- Every path the script computes on line 22 lies under
`pathToProject + "rules"`. -/
theorem targetPath_shape (proj r f : List Char) (h : targetPath proj r = some f) :
    ∃ s, f = proj ++ "rules".data ++ s := by
  unfold targetPath at h
  split at h
  · exact ⟨_, (Option.some.injEq _ _ ▸ h).symm⟩
  · exact absurd h (by simp)

/-- One loop iteration either leaves the filesystem alone or writes the
computed target path, and nothing else. -/
theorem processRule_effect (load : List Char → Option RuleYaml) (proj : List Char)
    (fs : FS) (r : List Char) (fs₁ : FS) (evs : List Event)
    (h : processRule load proj fs r = some (fs₁, evs)) :
    fs₁ = fs ∨ ∃ f t, targetPath proj r = some f ∧ fs₁ = writeFile fs f t := by
  unfold processRule at h
  split at h
  · injection h with h'
    rw [Prod.mk.injEq] at h'
    exact Or.inl h'.1.symm
  · split at h
    · exact absurd h (by simp)
    · split at h
      · injection h with h'
        rw [Prod.mk.injEq] at h'
        exact Or.inl h'.1.symm
      · split at h
        · exact absurd h (by simp)
        · split at h
          · exact absurd h (by simp)
          · split at h
            · exact absurd h (by simp)
            · split at h
              · exact absurd h (by simp)
              · injection h with h'
                rw [Prod.mk.injEq] at h'
                exact Or.inr ⟨_, _, by assumption, h'.1.symm⟩

/-! Claim C1: path mapping. -/

/-- C1, counterexample: the claim says the target path reuses the
suffix of the source path after the LAST occurrence of "rules".  For
the glob-shaped source path `rulesdir/v/rules/c/f` (customs root
`rulesdir`, variant `v`, category `c`, rule file `f`) the code's
`split("rules")[1]` keys on the FIRST occurrence — the one inside the
customs root's own name — and yields target `/proj/rulesdir/v/`,
whereas the last-occurrence rule of the claim yields `/proj/rules/c/f`. -/
theorem targetPath_last_occurrence_counterexample :
    "rulesdir/v/rules/c/f".data
        = "rulesdir".data ++ "/".data ++ "v".data ++ "/rules/".data
            ++ "c".data ++ "/".data ++ "f".data
    ∧ targetPath "/proj/".data "rulesdir/v/rules/c/f".data
        = some "/proj/rulesdir/v/".data
    ∧ targetPathSpec "/proj/".data "rulesdir/v/rules/c/f".data
        = some "/proj/rules/c/f".data
    ∧ targetPath "/proj/".data "rulesdir/v/rules/c/f".data
        ≠ targetPathSpec "/proj/".data "rulesdir/v/rules/c/f".data := by
  exact ⟨by decide, by decide, by decide, by decide⟩

/-- C1, amended: for a source path whose FIRST occurrence of "rules"
starts at offset `a.length` (no occurrence starts earlier, which is
what the hypothesis on `a ++ "rules".dropLast` says), the computed
target is the project root, then `"rules"`, then the part of the
remainder `b` that precedes the next occurrence of "rules" in `b` (all
of `b` when there is none) — i.e. the `[1]` element of the Python
split, not the suffix after the last occurrence. -/
theorem targetPath_after_first_rules (proj a b : List Char)
    (h : containsPat "rules".data (a ++ "rules".data.dropLast) = false) :
    targetPath proj (a ++ "rules".data ++ b)
      = some (proj ++ "rules".data ++ beforeFirst "rules".data b) := by
  unfold targetPath
  rw [pySplit_append "rules".data b (by decide) a h]
  obtain ⟨t, ht⟩ := pySplit_head "rules".data b
  rw [ht]

/-- C1 witness: the amended path mapping evaluated on the fixture
path `/c/v1/rules/audit/r1.yaml`. -/
theorem targetPath_after_first_rules_witness :
    targetPath "/proj/".data ("/c/v1/".data ++ "rules".data ++ "/audit/r1.yaml".data)
      = some ("/proj/".data ++ "rules".data
          ++ beforeFirst "rules".data "/audit/r1.yaml".data) :=
  targetPath_after_first_rules "/proj/".data "/c/v1/".data "/audit/r1.yaml".data (by decide)

/-! Claim C2: the textual replacement. -/

/-- C2, counterexample: the claim says only the FIRST occurrence of
newline-plus-anchor is replaced and later ones are left unchanged.
Python's `str.replace` replaces every occurrence: on a text with two
`\nseverity:` occurrences both receive the tag line, so the code's
result differs from the first-occurrence-only replacement the claim
describes. -/
theorem mergeText_first_only_counterexample :
    mergeText "tag" "severity:".data "x: 1\nseverity: a\ny: 2\nseverity: b\n".data
      = "x: 1\n- tag\nseverity: a\ny: 2\n- tag\nseverity: b\n".data
    ∧ replaceFirstOnly ('\n' :: "severity:".data) (cnssitag "tag" "severity:".data)
        "x: 1\nseverity: a\ny: 2\nseverity: b\n".data
      = "x: 1\n- tag\nseverity: a\ny: 2\nseverity: b\n".data
    ∧ mergeText "tag" "severity:".data "x: 1\nseverity: a\ny: 2\nseverity: b\n".data
      ≠ replaceFirstOnly ('\n' :: "severity:".data) (cnssitag "tag" "severity:".data)
          "x: 1\nseverity: a\ny: 2\nseverity: b\n".data := by
  exact ⟨by decide, by decide, by decide⟩

/-- C2, amended: the insertion step replaces EVERY occurrence of the
newline-plus-anchor-line substring, scanning left to right: at the
first occurrence (offset `a.length`) the replacement is inserted and
the remainder `b` is processed the same way, and a text `c` without
any occurrence is returned unchanged. -/
theorem mergeText_replaces_every_occurrence (tag : String) (anchorLine a b c : List Char)
    (h1 : containsPat ('\n' :: anchorLine) (a ++ ('\n' :: anchorLine).dropLast) = false)
    (h2 : containsPat ('\n' :: anchorLine) c = false) :
    mergeText tag anchorLine (a ++ ('\n' :: anchorLine) ++ b)
      = a ++ cnssitag tag anchorLine ++ mergeText tag anchorLine b
    ∧ mergeText tag anchorLine c = c :=
  ⟨pyReplace_append ('\n' :: anchorLine) (cnssitag tag anchorLine) b (by simp) a h1,
    pyReplace_of_not_contains ('\n' :: anchorLine) (cnssitag tag anchorLine) c h2⟩

/-- C2 witness: the all-occurrence replacement evaluated on a concrete
target text split around its `\nseverity:` line. -/
theorem mergeText_replaces_every_occurrence_witness :
    mergeText "cnssi" sevLine ("id: r1".data ++ ('\n' :: sevLine) ++ " low\n".data)
      = "id: r1".data ++ cnssitag "cnssi" sevLine
          ++ mergeText "cnssi" sevLine " low\n".data
    ∧ mergeText "cnssi" sevLine "os: 13\n".data = "os: 13\n".data :=
  mergeText_replaces_every_occurrence "cnssi" sevLine
    "id: r1".data " low\n".data "os: 13\n".data (by decide) (by decide)

/-! Claim C3: tag extraction. -/

/-- C3, counterexample: the claim says that when `tags` is present but
an empty list the tag value is the empty string.  In the code the
default `['']` of line 28 only applies when the key is ABSENT; for a
present-but-empty list, `tags[0]` raises `IndexError` and the run
aborts (modelled as `none`) — no empty-string tag is used.  Evaluated
on the fixture whose source rule is `tags: []`. -/
theorem tags_empty_list_aborts_counterexample :
    processRule loadX projX fsEmptyTags srcPathX = none := by decide

/-- C3, amended: if the source's `tags` key is absent, the tag value is
the empty string (inserted line `- `); if it is present and non-empty,
the tag value is its first element; but if it is present and an EMPTY
list, `tags[0]` raises `IndexError` and the iteration aborts instead of
using an empty tag. -/
theorem mergeStep_tag_selection (file : List Char) (srcY tgtY : RuleYaml) (text : List Char) :
    (srcY.tags = none →
      mergeStep file srcY tgtY text
        = some (mergeText "" (anchorOf tgtY) text,
            [Event.printedTarget file, Event.printedTags [""],
             Event.printedCnssitag (cnssitag "" (anchorOf tgtY)),
             Event.printedResult (mergeText "" (anchorOf tgtY) text),
             Event.printedCnssitag (cnssitag "" (anchorOf tgtY))]))
    ∧ (∀ t ts, srcY.tags = some (t :: ts) →
      mergeStep file srcY tgtY text
        = some (mergeText t (anchorOf tgtY) text,
            [Event.printedTarget file, Event.printedTags (t :: ts),
             Event.printedCnssitag (cnssitag t (anchorOf tgtY)),
             Event.printedResult (mergeText t (anchorOf tgtY) text),
             Event.printedCnssitag (cnssitag t (anchorOf tgtY))]))
    ∧ (srcY.tags = some [] → mergeStep file srcY tgtY text = none) := by
  refine ⟨?_, ?_, ?_⟩
  · intro h
    simp [mergeStep, getTags, h]
  · intro t ts h
    simp [mergeStep, getTags, h]
  · intro h
    simp [mergeStep, getTags, h]

/-- C3 witness: the absent-`tags` case on the fixture target — the tag
used is the empty string, giving the inserted line `- `. -/
theorem mergeStep_tag_selection_witness :
    mergeStep tgtPathX ⟨none, false, false⟩ ⟨none, true, false⟩ tgtTextX
      = some (mergeText "" (anchorOf ⟨none, true, false⟩) tgtTextX,
          [Event.printedTarget tgtPathX, Event.printedTags [""],
           Event.printedCnssitag (cnssitag "" (anchorOf ⟨none, true, false⟩)),
           Event.printedResult (mergeText "" (anchorOf ⟨none, true, false⟩) tgtTextX),
           Event.printedCnssitag (cnssitag "" (anchorOf ⟨none, true, false⟩))]) :=
  (mergeStep_tag_selection tgtPathX ⟨none, false, false⟩ ⟨none, true, false⟩ tgtTextX).1 rfl

/-! Claim C4: non-idempotence. -/

/-- C4: the merge is not idempotent.  On a text whose single clean
occurrence of newline-plus-anchor sits at offset `a.length`, one merge
yields `a ++ "\n- tag" ++ "\n<anchor>" ++ b`; merging that result again
matches the anchor line once more (the replacement keys on the anchor
only) and inserts a second, duplicate `- <tag>` line.  The third
hypothesis rules out a pathological tag that itself smuggles in the
anchor pattern. -/
theorem merge_not_idempotent (tag : String) (anchorLine a b : List Char)
    (h1 : containsPat ('\n' :: anchorLine) (a ++ ('\n' :: anchorLine).dropLast) = false)
    (h2 : containsPat ('\n' :: anchorLine) b = false)
    (h3 : containsPat ('\n' :: anchorLine)
        ((a ++ insLine tag) ++ ('\n' :: anchorLine).dropLast) = false) :
    mergeText tag anchorLine (mergeText tag anchorLine (a ++ ('\n' :: anchorLine) ++ b))
      = a ++ insLine tag ++ insLine tag ++ ('\n' :: anchorLine) ++ b
    ∧ mergeText tag anchorLine (mergeText tag anchorLine (a ++ ('\n' :: anchorLine) ++ b))
      ≠ mergeText tag anchorLine (a ++ ('\n' :: anchorLine) ++ b) := by
  have once : mergeText tag anchorLine (a ++ ('\n' :: anchorLine) ++ b)
      = a ++ insLine tag ++ ('\n' :: anchorLine) ++ b := by
    rw [show mergeText tag anchorLine (a ++ ('\n' :: anchorLine) ++ b)
        = pyReplace ('\n' :: anchorLine) (cnssitag tag anchorLine)
            (a ++ ('\n' :: anchorLine) ++ b) from rfl,
      pyReplace_append ('\n' :: anchorLine) (cnssitag tag anchorLine) b (by simp) a h1,
      pyReplace_of_not_contains ('\n' :: anchorLine) (cnssitag tag anchorLine) b h2]
    simp [cnssitag, List.append_assoc]
  have twice : mergeText tag anchorLine (a ++ insLine tag ++ ('\n' :: anchorLine) ++ b)
      = a ++ insLine tag ++ insLine tag ++ ('\n' :: anchorLine) ++ b := by
    have happ := pyReplace_append ('\n' :: anchorLine) (cnssitag tag anchorLine) b
      (by simp) (a ++ insLine tag) h3
    rw [pyReplace_of_not_contains ('\n' :: anchorLine) (cnssitag tag anchorLine) b h2] at happ
    rw [show mergeText tag anchorLine (a ++ insLine tag ++ ('\n' :: anchorLine) ++ b)
        = pyReplace ('\n' :: anchorLine) (cnssitag tag anchorLine)
            (a ++ insLine tag ++ ('\n' :: anchorLine) ++ b) from rfl]
    rw [show a ++ insLine tag ++ ('\n' :: anchorLine) ++ b
        = (a ++ insLine tag) ++ ('\n' :: anchorLine) ++ b by simp [List.append_assoc]]
    rw [happ]
    simp [cnssitag, List.append_assoc]
  refine ⟨by rw [once]; exact twice, ?_⟩
  rw [once, twice]
  intro heq
  have hlen := congrArg List.length heq
  simp [insLine, List.length_append] at hlen
  omega

/-- C4 witness: merging the fixture target twice duplicates the
inserted `- cnssi` line. -/
theorem merge_not_idempotent_witness :
    mergeText "cnssi" sevLine
        (mergeText "cnssi" sevLine ("id: r1".data ++ ('\n' :: sevLine) ++ " low\n".data))
      = "id: r1".data ++ insLine "cnssi" ++ insLine "cnssi" ++ ('\n' :: sevLine) ++ " low\n".data
    ∧ mergeText "cnssi" sevLine
        (mergeText "cnssi" sevLine ("id: r1".data ++ ('\n' :: sevLine) ++ " low\n".data))
      ≠ mergeText "cnssi" sevLine ("id: r1".data ++ ('\n' :: sevLine) ++ " low\n".data) :=
  merge_not_idempotent "cnssi" sevLine "id: r1".data " low\n".data
    (by decide) (by decide) (by decide)

/-! Claim C5: the first-merge insertion and its frame. -/

/-- C5, counterexample: the claim's precondition only asks that the
target text CONTAIN `severity:`.  A target whose `severity:` line is
the very first line (no preceding newline) contains `severity:`, yet
the replacement pattern `\nseverity:` never matches: the merge leaves
the text byte-identical and no `- <tag>` line is inserted anywhere,
contradicting the claimed postcondition. -/
theorem merge_severity_first_line_counterexample :
    containsPat "severity:".data "severity: medium\nmobileconfig: false\n".data = true
    ∧ mergeText "cnssi" sevLine "severity: medium\nmobileconfig: false\n".data
      = "severity: medium\nmobileconfig: false\n".data
    ∧ containsPat "- cnssi".data
        (mergeText "cnssi" sevLine "severity: medium\nmobileconfig: false\n".data) = false := by
  exact ⟨by decide, by decide, by decide⟩

/-- C5, amended: when the target text has exactly one occurrence of
`severity:` PRECEDED BY A NEWLINE (the occurrence at offset `a.length`,
with none starting earlier and none in `b`), the merged text is the
original with the single new line `- <tag>` inserted immediately above
the `severity:` line — everything before and after is preserved
verbatim. -/
theorem merge_severity_inserts_tag_line (tag : String) (a b : List Char)
    (h1 : containsPat ('\n' :: sevLine) (a ++ ('\n' :: sevLine).dropLast) = false)
    (h2 : containsPat ('\n' :: sevLine) b = false) :
    mergeText tag sevLine (a ++ ('\n' :: sevLine) ++ b)
      = a ++ insLine tag ++ ('\n' :: sevLine) ++ b := by
  rw [show mergeText tag sevLine (a ++ ('\n' :: sevLine) ++ b)
      = pyReplace ('\n' :: sevLine) (cnssitag tag sevLine)
          (a ++ ('\n' :: sevLine) ++ b) from rfl,
    pyReplace_append ('\n' :: sevLine) (cnssitag tag sevLine) b (by simp) a h1,
    pyReplace_of_not_contains ('\n' :: sevLine) (cnssitag tag sevLine) b h2]
  simp [cnssitag, List.append_assoc]

/-- C5 witness: the insertion on the fixture target text. -/
theorem merge_severity_inserts_tag_line_witness :
    mergeText "cnssi" sevLine ("id: r1".data ++ ('\n' :: sevLine) ++ " low\n".data)
      = "id: r1".data ++ insLine "cnssi" ++ ('\n' :: sevLine) ++ " low\n".data :=
  merge_severity_inserts_tag_line "cnssi" "id: r1".data " low\n".data
    (by decide) (by decide)

/-! Claim C6: anchor choice. -/

/-- C6: the insertion anchor is chosen by the binary test
`'severity' in rule_yaml` alone: with a `severity` key the anchor line
is `severity:`, in every other case `mobileconfig:`; two parsed targets
agreeing on `severity`-presence (but possibly differing on a
`mobileconfig` key or anything else) produce identical merge steps, so
`mobileconfig`-presence is never tested. -/
theorem anchor_choice (file : List Char) (srcY tgtY tgtY' : RuleYaml) (text : List Char)
    (hsev : tgtY.severityPresent = tgtY'.severityPresent) :
    mergeStep file srcY tgtY text = mergeStep file srcY tgtY' text
    ∧ (tgtY.severityPresent = true → anchorOf tgtY = sevLine)
    ∧ (tgtY.severityPresent = false → anchorOf tgtY = mobLine) := by
  have ha : anchorOf tgtY = anchorOf tgtY' := by
    rw [anchorOf, anchorOf, hsev]
  refine ⟨by rw [mergeStep, mergeStep, ha], ?_, ?_⟩
  · intro h
    rw [anchorOf, if_pos h]
  · intro h
    rw [anchorOf, h]
    rfl

/-- C6 witness: a target with a `severity` key and no `mobileconfig`
key merges identically to one with both keys and different tags. -/
theorem anchor_choice_witness :
    mergeStep tgtPathX ⟨some ["cnssi"], false, false⟩ ⟨none, true, false⟩ tgtTextX
      = mergeStep tgtPathX ⟨some ["cnssi"], false, false⟩ ⟨some ["zz"], true, true⟩ tgtTextX
    ∧ (RuleYaml.severityPresent ⟨none, true, false⟩ = true
        → anchorOf ⟨none, true, false⟩ = sevLine)
    ∧ (RuleYaml.severityPresent ⟨none, true, false⟩ = false
        → anchorOf ⟨none, true, false⟩ = mobLine) :=
  anchor_choice tgtPathX ⟨some ["cnssi"], false, false⟩ ⟨none, true, false⟩
    ⟨some ["zz"], true, true⟩ tgtTextX rfl

/-! Claim C7: a target with neither anchor key is rewritten unchanged. -/

/-- C7: when the parsed target mapping has no `severity` key (and no
`mobileconfig` key either), the script takes the `mobileconfig:` branch
and replaces `\nmobileconfig:` — which, per the hypothesis `htext`
(the textual counterpart of the key's absence in a well-formed rule
file), does not occur in the target text.  The file is rewritten with
its original content and every path's observable content is
unchanged. -/
theorem no_anchor_keys_unchanged (load : List Char → Option RuleYaml)
    (proj : List Char) (fs : FS) (r file srcText tgtText q : List Char)
    (srcY tgtY : RuleYaml) (tag : String) (ts : List String)
    (hsupp : containsPat "supplemental".data r = false)
    (hpath : targetPath proj r = some file)
    (htgt : lookupFile fs file = some tgtText)
    (hsrc : lookupFile fs r = some srcText)
    (hloads : load srcText = some srcY)
    (hloadt : load tgtText = some tgtY)
    (htags : getTags srcY = tag :: ts)
    (hsev : tgtY.severityPresent = false)
    (_hmob : tgtY.mobileconfigPresent = false)
    (htext : containsPat ('\n' :: mobLine) tgtText = false) :
    processRule load proj fs r
      = some (writeFile fs file tgtText,
          [Event.printedTarget file, Event.printedTags (tag :: ts),
           Event.printedCnssitag (cnssitag tag mobLine),
           Event.printedResult tgtText,
           Event.printedCnssitag (cnssitag tag mobLine)])
    ∧ lookupFile (writeFile fs file tgtText) q = lookupFile fs q := by
  have hanchor : anchorOf tgtY = mobLine := by
    rw [anchorOf, hsev]
    rfl
  have hmerged : mergeText tag mobLine tgtText = tgtText :=
    pyReplace_of_not_contains ('\n' :: mobLine) (cnssitag tag mobLine) tgtText htext
  constructor
  · simp [processRule, hsupp, hpath, htgt, hsrc, hloads, hloadt, mergeStep, htags,
      hanchor, hmerged]
  · rw [lookupFile_writeFile]
    by_cases hq : q = file
    · subst hq
      rw [if_pos rfl, htgt]
      rfl
    · rw [if_neg hq]

/-- C7 witness: the fixture target `id: r2\nfix: echo hi\n` (neither
key) is rewritten byte-identical. -/
theorem no_anchor_keys_unchanged_witness :
    processRule loadX projX fsNoKeys srcPathX
      = some (writeFile fsNoKeys tgtPathX tgtTextNoKeys,
          [Event.printedTarget tgtPathX, Event.printedTags ["cnssi"],
           Event.printedCnssitag (cnssitag "cnssi" mobLine),
           Event.printedResult tgtTextNoKeys,
           Event.printedCnssitag (cnssitag "cnssi" mobLine)])
    ∧ lookupFile (writeFile fsNoKeys tgtPathX tgtTextNoKeys) srcPathX
      = lookupFile fsNoKeys srcPathX :=
  no_anchor_keys_unchanged loadX projX fsNoKeys srcPathX tgtPathX srcTextX
    tgtTextNoKeys srcPathX ⟨some ["cnssi"], false, false⟩ ⟨none, false, false⟩
    "cnssi" [] (by decide) (by decide) (by decide) (by decide) (by decide)
    (by decide) rfl rfl rfl (by decide)

/-! Claim C8: missing target is reported and skipped. -/

/-- C8: for a non-supplemental source path whose computed target is not
a file, the iteration prints the `not found` diagnostic naming that
target path, leaves the filesystem exactly as it was, and the batch
continues: running the remaining source paths is exactly the same run
with the diagnostic prepended. -/
theorem missing_target_skipped (load : List Char → Option RuleYaml)
    (proj : List Char) (fs : FS) (r file : List Char) (rest : List (List Char))
    (hsupp : containsPat "supplemental".data r = false)
    (hpath : targetPath proj r = some file)
    (hmiss : lookupFile fs file = none) :
    processRule load proj fs r = some (fs, [Event.notFound file])
    ∧ runRules load proj fs (r :: rest)
      = (runRules load proj fs rest).map
          (fun p => (p.1, Event.notFound file :: p.2)) := by
  have h1 : processRule load proj fs r = some (fs, [Event.notFound file]) := by
    simp [processRule, hsupp, hpath, hmiss]
  refine ⟨h1, ?_⟩
  simp only [runRules]
  rw [h1]
  show (match runRules load proj fs rest with
    | none => none
    | some (fs₂, evs') => some (fs₂, [Event.notFound file] ++ evs')) = _
  cases hr : runRules load proj fs rest with
  | none => rfl
  | some p => rfl

/-- C8 witness: the fixture filesystem without the target file. -/
theorem missing_target_skipped_witness :
    processRule loadX projX fsMissing srcPathX
      = some (fsMissing, [Event.notFound tgtPathX])
    ∧ runRules loadX projX fsMissing [srcPathX]
      = (runRules loadX projX fsMissing []).map
          (fun p => (p.1, Event.notFound tgtPathX :: p.2)) :=
  missing_target_skipped loadX projX fsMissing srcPathX tgtPathX []
    (by decide) (by decide) (by decide)

/-! Claim C9: the argument-count check. -/

/-- C9: with any `sys.argv` whose length differs from 3 (program name
plus exactly two user arguments), the program prints the usage message
and exits with status 1, with the filesystem returned untouched and
independent of whatever the glob would have enumerated — the check on
lines 11–13 runs before any filesystem access. -/
theorem usage_error_on_bad_argv (load : List Char → Option RuleYaml)
    (argv globbed : List (List Char)) (fs : FS)
    (h : argv.length ≠ 3) :
    mainRun load argv globbed fs = some (1, fs, [Event.printedUsage]) := by
  unfold mainRun
  rw [if_pos h]

/-- C9 witness: invoking with zero user arguments. -/
theorem usage_error_on_bad_argv_witness :
    mainRun loadX ["cnssi-merge.py".data] [] [] = some (1, [], [Event.printedUsage]) :=
  usage_error_on_bad_argv loadX ["cnssi-merge.py".data] [] [] (by decide)

/-! Claim C10: writes stay under the project root. -/

/-- C10: across a whole run, every write targets a computed path of the
form `proj ++ "rules" ++ suffix`; the content of any path that does not
lie under `proj ++ "rules"` — in particular every file of the customs
tree when it is rooted elsewhere — is identical before and after the
run. -/
theorem runRules_writes_only_under_project (load : List Char → Option RuleYaml)
    (proj : List Char) (srcs : List (List Char)) :
    ∀ (fs fs' : FS) (evs : List Event) (q : List Char),
      runRules load proj fs srcs = some (fs', evs) →
      (proj ++ "rules".data).isPrefixOf q = false →
      lookupFile fs' q = lookupFile fs q := by
  induction srcs with
  | nil =>
    intro fs fs' evs q hrun _
    simp only [runRules] at hrun
    injection hrun with h'
    rw [Prod.mk.injEq] at h'
    rw [← h'.1]
  | cons r rest ih =>
    intro fs fs' evs q hrun hq
    simp only [runRules] at hrun
    split at hrun
    · exact absurd hrun (by simp)
    · rename_i fs₁ evs₁ hpr
      split at hrun
      · exact absurd hrun (by simp)
      · rename_i fs₂ evs₂ hrr
        injection hrun with h'
        rw [Prod.mk.injEq] at h'
        have hstep : lookupFile fs₁ q = lookupFile fs q := by
          rcases processRule_effect load proj fs r fs₁ evs₁ hpr with he | ⟨f, t, hf, he⟩
          · rw [he]
          · obtain ⟨s, hs⟩ := targetPath_shape proj r f hf
            have hqf : ¬ q = f := by
              intro hqf
              have hpre : (proj ++ "rules".data).isPrefixOf q = true := by
                rw [hqf, hs]
                exact isPrefixOf_append_self (proj ++ "rules".data) s
              rw [hq] at hpre
              exact Bool.false_ne_true hpre
            rw [he, lookupFile_writeFile, if_neg hqf]
        have htail : lookupFile fs' q = lookupFile fs₁ q :=
          h'.1 ▸ ih fs₁ fs₂ evs₂ q hrr hq
        rw [htail, hstep]

/-- C10 witness: after a full fixture run that rewrites the target, the
source rule file's content is unchanged. -/
theorem runRules_writes_only_under_project_witness :
    lookupFile [(srcPathX, srcTextX),
        (tgtPathX, "id: r1\n- cnssi\nseverity: low\n".data)] srcPathX
      = lookupFile fsX srcPathX :=
  runRules_writes_only_under_project loadX projX [srcPathX] fsX
    [(srcPathX, srcTextX), (tgtPathX, "id: r1\n- cnssi\nseverity: low\n".data)]
    [Event.printedTarget tgtPathX, Event.printedTags ["cnssi"],
     Event.printedCnssitag (cnssitag "cnssi" sevLine),
     Event.printedResult "id: r1\n- cnssi\nseverity: low\n".data,
     Event.printedCnssitag (cnssitag "cnssi" sevLine)]
    srcPathX (by decide) (by decide)

end CnssiMerge
